import Mathlib

/-!
Verification of the STMS traffic-signal ledger and arbitration core.

The Python sources are shallowly embedded:
* `blockchain.py` (Transaction, Block, Blockchain) becomes explicit state
  passing over Lean structures.  SHA-256 is abstracted as a parameter
  `H : HashInput → List Char` over the exact fields that
  `Block.calculate_hash` serializes; a concrete executable `toy_hash` is
  used to evaluate the model on concrete inputs.
* the proof-of-work loop in `Block.mine_block` is modelled with explicit
  fuel; `none` models divergence of the unbounded Python `while` loop.
* `backend/app.py`'s arbitration (`determine_traffic_lights`,
  `record_blockchain_transaction`, `calculate_green_time`) becomes a pure
  function over a lane registry (association list mirroring the Python
  dict, insertion order = list order), the `previous_signal_states` dict
  and the blockchain. Python timestamps (`datetime.utcnow()`) are passed
  in as explicit `Nat` arguments.
* the emergency-preemption segment of `main.py`'s control loop is
  modelled over a `Road` list; the `Road` class itself (file `road.py`)
  is absent from the sources and is modelled from the spec.
-/

namespace STMS

/-- Metadata values appearing in the Python dicts are strings or ints. -/
inductive MetaVal where
  | str (s : String)
  | int (n : Int)
deriving DecidableEq

/-- Transaction from blockchain.py: one traffic signal state change.
Timestamps (Python ISO strings from datetime.utcnow) are abstracted as
Nat instants supplied at construction time. -/
structure Transaction where
  lane_id : Int
  signal_state : String
  vehicle_count : Int
  green_time : Int
  emergency_vehicle : Bool
  node_id : String
  timestamp : Nat
  metadata : List (String × MetaVal)
deriving DecidableEq

/-- The exact fields serialized by Block.calculate_hash in blockchain.py
(index, timestamp, transactions, previous_hash, nonce). -/
structure HashInput where
  index : Nat
  timestamp : Nat
  transactions : List Transaction
  previous_hash : List Char
  nonce : Nat
deriving DecidableEq

/-- Abstract stand-in for the SHA-256 hex digest computed by
Block.calculate_hash. -/
def HashFn : Type := HashInput → List Char

/-- Block from blockchain.py. -/
structure Block where
  index : Nat
  timestamp : Nat
  transactions : List Transaction
  previous_hash : List Char
  nonce : Nat
  hash : List Char
deriving DecidableEq

/-- Block.calculate_hash: digest over (index, timestamp, transactions,
previous_hash, nonce). -/
def Block.calculate_hash (H : HashFn) (b : Block) : List Char :=
  H ⟨b.index, b.timestamp, b.transactions, b.previous_hash, b.nonce⟩

/-- Block.__init__: stores the fields and sets hash := calculate_hash(). -/
def Block.make (H : HashFn) (index : Nat) (transactions : List Transaction)
    (previous_hash : List Char) (nonce : Nat) (timestamp : Nat) : Block :=
  { index := index, timestamp := timestamp, transactions := transactions,
    previous_hash := previous_hash, nonce := nonce,
    hash := H ⟨index, timestamp, transactions, previous_hash, nonce⟩ }

/-- Block.mine_block: while hash[:difficulty] != "0"*difficulty, increment
nonce and recompute hash.  The unbounded Python loop is given explicit
fuel; `none` models divergence. -/
def Block.mine_block (H : HashFn) (difficulty : Nat) : Nat → Block → Option Block
  | fuel, b =>
    if b.hash.take difficulty = List.replicate difficulty '0' then some b
    else
      match fuel with
      | 0 => none
      | Nat.succ f =>
        Block.mine_block H difficulty f
          { b with nonce := b.nonce + 1,
                   hash := H ⟨b.index, b.timestamp, b.transactions, b.previous_hash, b.nonce + 1⟩ }

/-- Blockchain state from blockchain.py. -/
structure Blockchain where
  chain : List Block
  pending_transactions : List Transaction
  node_id : String
  difficulty : Nat
  block_size : Nat
  known_nodes : List String
deriving DecidableEq

/-- The synthetic INIT transaction of the genesis block. -/
def genesis_transaction (ts : Nat) : Transaction :=
  { lane_id := 0, signal_state := "INIT", vehicle_count := 0, green_time := 0,
    emergency_vehicle := false, node_id := "genesis", timestamp := ts,
    metadata := [("message", MetaVal.str "Genesis block for Traffic Signal Blockchain")] }

/-- Blockchain.create_genesis_block: Block(0, [genesis_tx], "0"*64). -/
def create_genesis_block (H : HashFn) (tx_ts block_ts : Nat) : Block :=
  Block.make H 0 [genesis_transaction tx_ts] (List.replicate 64 '0') 0 block_ts

/-- Blockchain.__init__. -/
def Blockchain.init (H : HashFn) (node_id : String) (difficulty block_size : Nat)
    (tx_ts block_ts : Nat) : Blockchain :=
  { chain := [create_genesis_block H tx_ts block_ts], pending_transactions := [],
    node_id := node_id, difficulty := difficulty, block_size := block_size,
    known_nodes := [node_id] }

/-- Blockchain.get_latest_block: chain[-1] (none models the IndexError on
an empty chain). -/
def Blockchain.get_latest_block (bc : Blockchain) : Option Block :=
  bc.chain.getLast?

/-- Blockchain.validate_transaction. -/
def validate_transaction (tx : Transaction) : Bool :=
  if tx.lane_id < 0 then false
  else if ¬ (tx.signal_state = "GREEN" ∨ tx.signal_state = "RED"
             ∨ tx.signal_state = "YELLOW" ∨ tx.signal_state = "INIT") then false
  else if tx.vehicle_count < 0 then false
  else if tx.green_time < 0 then false
  else true

/-- The mining-reward transaction optionally appended by
mine_pending_transactions. -/
def reward_transaction (node : String) (ts : Nat) : Transaction :=
  { lane_id := 0, signal_state := "REWARD", vehicle_count := 0, green_time := 0,
    emergency_vehicle := false, node_id := node, timestamp := ts,
    metadata := [("type", MetaVal.str "mining_reward")] }

/-- Blockchain.mine_pending_transactions.  Result `some (ob, bc')` gives
the Python return value `ob` (none when the pool was empty) and the
updated state; outer `none` models divergence of proof-of-work (or the
IndexError on an empty chain). -/
def Blockchain.mine_pending_transactions (H : HashFn) (fuel : Nat) (bc : Blockchain)
    (mining_reward_node : Option String) (ts : Nat) : Option (Option Block × Blockchain) :=
  if bc.pending_transactions = [] then some (none, bc)
  else
    let pending1 :=
      match mining_reward_node with
      | some node => bc.pending_transactions ++ [reward_transaction node ts]
      | none => bc.pending_transactions
    let transactions_to_mine := pending1.take bc.block_size
    let remaining := pending1.drop bc.block_size
    match bc.chain.getLast? with
    | none => none
    | some latest =>
      let new_block := Block.make H bc.chain.length transactions_to_mine latest.hash 0 ts
      match Block.mine_block H bc.difficulty fuel new_block with
      | none => none
      | some mined =>
        some (some mined,
          { bc with pending_transactions := remaining, chain := bc.chain ++ [mined] })

/-- Blockchain.add_transaction: validate, append to the pending pool, and
auto-mine once the pool reaches block_size. -/
def Blockchain.add_transaction (H : HashFn) (fuel : Nat) (bc : Blockchain)
    (tx : Transaction) (ts : Nat) : Option (Bool × Blockchain) :=
  if ¬ (validate_transaction tx = true) then some (false, bc)
  else
    let bc1 := { bc with pending_transactions := bc.pending_transactions ++ [tx] }
    if bc.block_size ≤ bc1.pending_transactions.length then
      match Blockchain.mine_pending_transactions H fuel bc1 none ts with
      | none => none
      | some (_, bc2) => some (true, bc2)
    else some (true, bc1)

/-- The loop body of Blockchain.is_chain_valid over an explicit list:
for i ≥ 1 check chain[i].hash == recomputation and
chain[i].previous_hash == chain[i-1].hash. -/
def is_chain_valid_list (H : HashFn) : List Block → Bool
  | [] => true
  | [_] => true
  | b0 :: b1 :: rest =>
    if ¬ (b1.hash = Block.calculate_hash H b1) then false
    else if ¬ (b1.previous_hash = b0.hash) then false
    else is_chain_valid_list H (b1 :: rest)

/-- Blockchain.is_chain_valid. -/
def Blockchain.is_chain_valid (H : HashFn) (bc : Blockchain) : Bool :=
  is_chain_valid_list H bc.chain

/-- Blockchain.replace_chain: accept only a strictly longer candidate that
passes the is_chain_valid check (run in Python over a temporary Blockchain
whose chain is the candidate, which is exactly `is_chain_valid_list`). -/
def Blockchain.replace_chain (H : HashFn) (bc : Blockchain) (new_chain : List Block) :
    Bool × Blockchain :=
  if new_chain.length ≤ bc.chain.length then (false, bc)
  else if ¬ (is_chain_valid_list H new_chain = true) then (false, bc)
  else (true, { bc with chain := new_chain })

/-- One entry of the backend lane registry (backend/app.py `lanes` dict):
the fields read by determine_traffic_lights, each read with
`.get(key, default)`; a missing key behaves as its default, so the entry
is modelled with the four fields present. -/
structure Lane where
  vehicle_count : Nat
  green_time : Nat
  is_green : Bool
  emergency_vehicle : Bool
deriving DecidableEq

/-- One entry of `previous_signal_states` in backend/app.py: the dedup key
(signal_state, vehicle_count, emergency_vehicle). -/
structure SignalRecord where
  signal_state : String
  vehicle_count : Nat
  emergency_vehicle : Bool
deriving DecidableEq

/-- The lane registry: the Python dict as an association list in
insertion order. -/
abbrev Registry : Type := List (Nat × Lane)

/-- Dict lookup on an association list. -/
def alookup {α : Type} (k : Nat) : List (Nat × α) → Option α
  | [] => none
  | (k', v) :: rest => if k' = k then some v else alookup k rest

/-- Dict assignment: replace in place if the key exists, append otherwise
(Python dicts keep insertion order). -/
def aupdate {α : Type} (k : Nat) (v : α) : List (Nat × α) → List (Nat × α)
  | [] => [(k, v)]
  | (k', v') :: rest => if k' = k then (k, v) :: rest else (k', v') :: aupdate k v rest

/-- calculate_green_time from backend/app.py:
min(int(base_time + vehicle_count * 1.5), max_time).  The float
multiplier 1.5 is modelled exactly as the rational 3/2; `int()` truncates
toward zero, which on the non-negative argument equals the floor. -/
def calculate_green_time (vehicle_count base_time max_time : Nat) : Int :=
  let multiplier : ℚ := 1.5
  let green_time : ℚ := (base_time : ℚ) + (vehicle_count : ℚ) * multiplier
  min ⌊green_time⌋ (max_time : Int)

/-- record_blockchain_transaction from backend/app.py: skip when the
(signal_state, vehicle_count, emergency_vehicle) tuple equals the last
recorded state for the lane (returning early, before the mining check);
otherwise build the Transaction, add it (updating
previous_signal_states only on success) and mine when the pending pool
reached block_size. -/
def record_blockchain_transaction (H : HashFn) (fuel : Nat)
    (prev : List (Nat × SignalRecord)) (bc : Blockchain)
    (lane_id : Nat) (signal_state : String) (vehicle_count green_time : Nat)
    (emergency_vehicle : Bool) (ts : Nat) :
    Option (List (Nat × SignalRecord) × Blockchain) :=
  let current : SignalRecord :=
    { signal_state := signal_state, vehicle_count := vehicle_count,
      emergency_vehicle := emergency_vehicle }
  if alookup lane_id prev = some current then some (prev, bc)
  else
    let tx : Transaction :=
      { lane_id := (lane_id : Int), signal_state := signal_state,
        vehicle_count := (vehicle_count : Int), green_time := (green_time : Int),
        emergency_vehicle := emergency_vehicle, node_id := bc.node_id,
        timestamp := ts, metadata := [("green_time", MetaVal.int (green_time : Int))] }
    match Blockchain.add_transaction H fuel bc tx ts with
    | none => none
    | some (ok, bc1) =>
      let prev1 := if ok then aupdate lane_id current prev else prev
      if bc1.block_size ≤ bc1.pending_transactions.length then
        match Blockchain.mine_pending_transactions H fuel bc1 none ts with
        | none => none
        | some (_, bc2) => some (prev1, bc2)
      else some (prev1, bc1)

/-- The first phase of determine_traffic_lights: iterate the registry in
order, record a RED transaction for each currently green lane, and set
every is_green to False. -/
def set_all_red (H : HashFn) (fuel ts : Nat) :
    Registry → List (Nat × SignalRecord) → Blockchain →
    Option (Registry × List (Nat × SignalRecord) × Blockchain)
  | [], prev, bc => some ([], prev, bc)
  | (lid, ld) :: rest, prev, bc =>
    let step :=
      if ld.is_green then
        record_blockchain_transaction H fuel prev bc lid "RED"
          ld.vehicle_count ld.green_time false ts
      else some (prev, bc)
    match step with
    | none => none
    | some (prev1, bc1) =>
      match set_all_red H fuel ts rest prev1 bc1 with
      | none => none
      | some (rest1, prev2, bc2) =>
        some ((lid, { ld with is_green := false }) :: rest1, prev2, bc2)

/-- max((data.get('vehicle_count', 0) for data in lanes.values()),
default=0). -/
def max_traffic (lanes : Registry) : Nat :=
  lanes.foldr (fun p acc => max p.2.vehicle_count acc) 0

/-- sorted(lanes.keys()). -/
def sorted_keys (lanes : Registry) : List Nat :=
  List.insertionSort (· ≤ ·) (lanes.map Prod.fst)

/-- lanes[k].get('vehicle_count', 0). -/
def get_vc (lanes : Registry) (k : Nat) : Nat :=
  match alookup k lanes with
  | some ld => ld.vehicle_count
  | none => 0

/-- The selection loop of determine_traffic_lights: the first key in
ascending order whose vehicle count equals max_traffic. -/
def highest_traffic_lane (lanes : Registry) : Option Nat :=
  (sorted_keys lanes).find? (fun k => get_vc lanes k == max_traffic lanes)

/-- lanes[k]['is_green'] = True. -/
def set_green (k : Nat) (lanes : Registry) : Registry :=
  lanes.map (fun p => if p.1 = k then (p.1, { p.2 with is_green := true }) else p)

/-- determine_traffic_lights from backend/app.py.  Phase one turns every
lane red (recording RED transactions for previously green lanes); phase
two picks the winner: with no lanes, return; with max_traffic == 0,
default literally lane 1 to green if present; otherwise the first
max-count lane in ascending key order becomes green, guarded by the
Python truthiness test `if highest_traffic_lane:` which is false for the
lane id 0. -/
def determine_traffic_lights (H : HashFn) (fuel : Nat) (lanes : Registry)
    (prev : List (Nat × SignalRecord)) (bc : Blockchain) (ts : Nat) :
    Option (Registry × List (Nat × SignalRecord) × Blockchain) :=
  match set_all_red H fuel ts lanes prev bc with
  | none => none
  | some (lanes1, prev1, bc1) =>
    if lanes1 = [] then some (lanes1, prev1, bc1)
    else if max_traffic lanes1 = 0 then
      match alookup 1 lanes1 with
      | some l1 =>
        match record_blockchain_transaction H fuel prev1 bc1 1 "GREEN"
            l1.vehicle_count l1.green_time false ts with
        | none => none
        | some (prev2, bc2) => some (set_green 1 lanes1, prev2, bc2)
      | none => some (lanes1, prev1, bc1)
    else
      match highest_traffic_lane lanes1 with
      | some k =>
        if k = 0 then some (lanes1, prev1, bc1)
        else
          match alookup k lanes1 with
          | some ld =>
            match record_blockchain_transaction H fuel prev1 bc1 k "GREEN"
                ld.vehicle_count ld.green_time ld.emergency_vehicle ts with
            | none => none
            | some (prev2, bc2) => some (set_green k lanes1, prev2, bc2)
          | none => some (lanes1, prev1, bc1)
      | none => some (lanes1, prev1, bc1)

/-- Lanes whose green flag is set, in registry order. -/
def green_keys (lanes : Registry) : List Nat :=
  (lanes.filter (fun p => p.2.is_green)).map Prod.fst

/-- Keys of the registry in insertion order. -/
def keys_of (lanes : Registry) : List Nat := lanes.map Prod.fst

/-- Modelled from the spec: the Road class of main.py (file road.py is
not in the source tree).  Per the spec a road carries a GREEN/RED state
and an emergency flag; turn_green and turn_red set the state. -/
structure Road where
  name : String
  is_green : Bool
  hasEmergencyVehicle : Bool
deriving DecidableEq

/-- Modelled from the spec: road.turn_green() / road.turn_red() set the
is_green flag of the road at position j. -/
def turn_road (j : Nat) (g : Bool) : List Road → List Road
  | [] => []
  | r :: rest =>
    match j with
    | 0 => { r with is_green := g } :: rest
    | Nat.succ j2 => r :: turn_road j2 g rest

/-- Index of the first road whose emergency flag is set. -/
def first_emergency : List Road → Option Nat
  | [] => none
  | r :: rest =>
    if r.hasEmergencyVehicle then some 0 else (first_emergency rest).map Nat.succ

/-- The emergency-preemption segment of the main.py control loop (lines
52-64): scan the roads in list order; at the first road with an
emergency vehicle, if it is not the active road, turn the active road
red, make the emergency road the active one and turn it green; then
break out of the loop. -/
def emergency_scan (roads : List Road) (active : Nat) : List Road × Nat :=
  match first_emergency roads with
  | none => (roads, active)
  | some i =>
    if i = active then (roads, active)
    else (turn_road i true (turn_road active false roads), i)

/-- Numeric code of a string (sum of character codes). -/
def string_code (s : String) : Nat :=
  s.data.foldr (fun c acc => c.toNat + acc) 0

/-- Numeric code of a metadata value. -/
def meta_val_code : MetaVal → Nat
  | MetaVal.str s => string_code s
  | MetaVal.int n => n.natAbs

/-- Numeric code of a metadata list. -/
def meta_code (m : List (String × MetaVal)) : Nat :=
  m.foldr (fun p acc => string_code p.1 + meta_val_code p.2 + acc) 0

/-- Numeric code of a transaction: depends on every field. -/
def tx_code (tx : Transaction) : Nat :=
  tx.lane_id.natAbs + 3 * tx.vehicle_count.natAbs + 5 * tx.green_time.natAbs
    + (if tx.emergency_vehicle then 7 else 0) + string_code tx.signal_state
    + string_code tx.node_id + tx.timestamp + meta_code tx.metadata

/-- Numeric code of a digest. -/
def chars_code (l : List Char) : Nat :=
  l.foldr (fun c acc => c.toNat + acc) 0

/-- A concrete executable hash function used to run the model on concrete
inputs: two hex characters whose first is '0' exactly when the combined
field code is even (so searching at most two nonces mines a block at
difficulty 1, and changing any field can change the digest). -/
def toy_hash : HashFn := fun inp =>
  let v := inp.index + inp.timestamp
    + inp.transactions.foldr (fun t acc => tx_code t + acc) 0
    + chars_code inp.previous_hash + inp.nonce
  (if v % 2 = 0 then '0' else '1') :: [Char.ofNat (48 + v % 10)]

/-! Concrete fixtures used to evaluate the model on explicit inputs. -/

/-- A fresh ledger with the default constructor arguments of
backend/app.py (difficulty 2, block_size 5). -/
def fixture_bc : Blockchain := Blockchain.init toy_hash "traffic_signal_node_1" 2 5 0 0

/-- A valid concrete transaction. -/
def fixture_tx : Transaction :=
  { lane_id := 1, signal_state := "GREEN", vehicle_count := 4, green_time := 36,
    emergency_vehicle := false, node_id := "n", timestamp := 0, metadata := [] }

/-- An invalid concrete transaction (negative lane id). -/
def fixture_bad_tx : Transaction :=
  { lane_id := -1, signal_state := "GREEN", vehicle_count := 0, green_time := 0,
    emergency_vehicle := false, node_id := "n", timestamp := 0, metadata := [] }

/-- A ledger with block_size 1 and difficulty 1, so that adding one valid
transaction auto-mines a block under toy_hash. -/
def c5_bc0 : Blockchain := Blockchain.init toy_hash "n" 1 1 0 0

/-- The state after adding fixture_tx to c5_bc0 (the add auto-mines). -/
def c5_bc1 : Blockchain :=
  ((Blockchain.add_transaction toy_hash 3 c5_bc0 fixture_tx 0).getD (false, c5_bc0)).2

/-- A concrete RED transaction. -/
def fixture_red_tx : Transaction :=
  { lane_id := 2, signal_state := "RED", vehicle_count := 3, green_time := 30,
    emergency_vehicle := false, node_id := "n", timestamp := 0, metadata := [] }

/-- A ledger with one pending transaction, difficulty 1, block_size 5. -/
def c6_bc : Blockchain :=
  { chain := [create_genesis_block toy_hash 0 0],
    pending_transactions := [fixture_red_tx],
    node_id := "n", difficulty := 1, block_size := 5, known_nodes := ["n"] }

/-- The outcome of mining c6_bc. -/
def c6_res : Option Block × Blockchain :=
  (Blockchain.mine_pending_transactions toy_hash 3 c6_bc none 0).getD (none, c6_bc)

/-- The block mined from c6_bc. -/
def c6_block : Block := c6_res.1.getD (Block.make toy_hash 0 [] [] 0 0)

/-- The untampered genesis block under toy_hash. -/
def c10_orig_genesis : Block := create_genesis_block toy_hash 0 0

/-- The genesis block with its transaction list altered but its stored
hash field left stale. -/
def c10_tampered_genesis : Block :=
  { c10_orig_genesis with
    transactions := [{ genesis_transaction 0 with vehicle_count := 99 }] }

/-- A concrete GREEN transaction for the C10 tip block. -/
def c10_tip_tx : Transaction :=
  { lane_id := 1, signal_state := "GREEN", vehicle_count := 2, green_time := 33,
    emergency_vehicle := false, node_id := "n", timestamp := 1, metadata := [] }

/-- A well-formed successor block linked to the stale stored hash. -/
def c10_tip : Block :=
  Block.make toy_hash 1 [c10_tip_tx] c10_tampered_genesis.hash 0 1

/-- The registry after phase one of determine_traffic_lights: every lane
entry with its green flag cleared. -/
def all_red (lanes : Registry) : Registry :=
  lanes.map (fun p => (p.1, { p.2 with is_green := false }))

/-- A single-lane registry (lane 1, no vehicles, currently red). -/
def c1_lanes0 : Registry := [(1, ⟨0, 30, false, false⟩)]

/-- The state after one arbitration cycle on c1_lanes0 from fresh state. -/
def c1_s1 : Registry × List (Nat × SignalRecord) × Blockchain :=
  (determine_traffic_lights toy_hash 9 c1_lanes0 [] fixture_bc 0).getD ([], [], fixture_bc)

/-- The state after re-running the cycle on the unchanged registry. -/
def c1_s2 : Registry × List (Nat × SignalRecord) × Blockchain :=
  (determine_traffic_lights toy_hash 9 c1_s1.1 c1_s1.2.1 c1_s1.2.2 0).getD ([], [], fixture_bc)

/-- A dedup-primed previous_signal_states map for lane 1. -/
def c1_prev : List (Nat × SignalRecord) := [(1, ⟨"GREEN", 0, false⟩)]

/-- A registry whose only lane is lane 2 with zero vehicles. -/
def c2_lanes : Registry := [(2, ⟨0, 30, false, false⟩)]

/-- A two-lane registry used by the C2 witness. -/
def c2w_lanes : Registry := [(1, ⟨2, 33, false, false⟩), (2, ⟨5, 37, false, false⟩)]

/-- The cycle outcome on c2w_lanes. -/
def c2w_out : Registry × List (Nat × SignalRecord) × Blockchain :=
  (determine_traffic_lights toy_hash 9 c2w_lanes [] fixture_bc 0).getD ([], [], fixture_bc)

/-- The lane with an emergency vehicle but low vehicle count. -/
def c3_emergency_lane : Lane := ⟨1, 31, false, true⟩

/-- A registry where lane 1 has the most vehicles and lane 2 carries an
emergency vehicle with fewer vehicles. -/
def c3_lanes : Registry := [(1, ⟨10, 45, false, false⟩), (2, c3_emergency_lane)]

/-- The cycle outcome on c3_lanes. -/
def c3_out : Registry × List (Nat × SignalRecord) × Blockchain :=
  (determine_traffic_lights toy_hash 9 c3_lanes [] fixture_bc 0).getD ([], [], fixture_bc)

/-- Roads 1-4 of main.py with an emergency on the third road and the
first road active and green. -/
def c3_roads : List Road :=
  [⟨"Road 1", true, false⟩, ⟨"Road 2", false, false⟩,
   ⟨"Road 3", false, true⟩, ⟨"Road 4", false, false⟩]

/-- States reachable from a freshly constructed ledger by any sequence of
add_transaction and mine_pending_transactions calls that return (outer
`some`: the Python call terminated). -/
inductive Reachable (H : HashFn) : Blockchain → Prop where
  | init (node_id : String) (difficulty block_size tx_ts block_ts : Nat) :
      Reachable H (Blockchain.init H node_id difficulty block_size tx_ts block_ts)
  | add (bc : Blockchain) (tx : Transaction) (ts fuel : Nat) (r : Bool) (bc' : Blockchain) :
      Reachable H bc → Blockchain.add_transaction H fuel bc tx ts = some (r, bc') →
      Reachable H bc'
  | mine (bc : Blockchain) (rn : Option String) (ts fuel : Nat) (ob : Option Block)
      (bc' : Blockchain) :
      Reachable H bc →
      Blockchain.mine_pending_transactions H fuel bc rn ts = some (ob, bc') →
      Reachable H bc'

/-! Helper lemmas about the mining loop and chain validity. -/

theorem mine_block_spec (H : HashFn) (d : Nat) :
    ∀ (fuel : Nat) (b b' : Block), Block.mine_block H d fuel b = some b' →
    b'.index = b.index ∧ b'.timestamp = b.timestamp ∧
    b'.transactions = b.transactions ∧ b'.previous_hash = b.previous_hash ∧
    b'.hash.take d = List.replicate d '0' ∧
    (b.hash = Block.calculate_hash H b → b'.hash = Block.calculate_hash H b') := by
  intro fuel
  induction fuel with
  | zero =>
    intro b b' h
    rw [Block.mine_block] at h
    split at h
    · rename_i hc
      cases h
      exact ⟨rfl, rfl, rfl, rfl, hc, fun hh => hh⟩
    · exact absurd h (by simp)
  | succ f ih =>
    intro b b' h
    rw [Block.mine_block] at h
    split at h
    · rename_i hc
      cases h
      exact ⟨rfl, rfl, rfl, rfl, hc, fun hh => hh⟩
    · obtain ⟨h1, h2, h3, h4, h5, h6⟩ := ih _ _ h
      exact ⟨h1, h2, h3, h4, h5, fun _ => h6 rfl⟩

theorem is_chain_valid_cons2 (H : HashFn) (b0 b1 : Block) (rest : List Block) :
    is_chain_valid_list H (b0 :: b1 :: rest) = true ↔
    (b1.hash = Block.calculate_hash H b1 ∧ b1.previous_hash = b0.hash ∧
     is_chain_valid_list H (b1 :: rest) = true) := by
  rw [is_chain_valid_list]
  split_ifs <;> simp_all

theorem valid_append (H : HashFn) :
    ∀ (l : List Block) (t b : Block), is_chain_valid_list H l = true →
    l.getLast? = some t → b.hash = Block.calculate_hash H b →
    b.previous_hash = t.hash → is_chain_valid_list H (l ++ [b]) = true := by
  intro l
  induction l with
  | nil => intro t b _ hlast _ _; simp at hlast
  | cons x xs ih =>
    intro t b hv hlast hh hp
    cases xs with
    | nil =>
      simp at hlast
      cases hlast
      rw [List.singleton_append, is_chain_valid_cons2]
      exact ⟨hh, hp, rfl⟩
    | cons y rest =>
      rw [is_chain_valid_cons2] at hv
      obtain ⟨h1, h2, h3⟩ := hv
      rw [List.getLast?_cons_cons] at hlast
      show is_chain_valid_list H (x :: (y :: rest ++ [b])) = true
      rw [List.cons_append] at *
      rw [is_chain_valid_cons2]
      exact ⟨h1, h2, ih t b h3 hlast hh hp⟩

theorem mine_pending_spec (H : HashFn) (fuel : Nat) (bc : Blockchain)
    (rn : Option String) (ts : Nat) (ob : Option Block) (bc' : Blockchain) :
    Blockchain.mine_pending_transactions H fuel bc rn ts = some (ob, bc') →
    (bc.pending_transactions = [] ∧ bc' = bc ∧ ob = none) ∨
    (bc.pending_transactions ≠ [] ∧ ∃ b, ob = some b ∧
      bc'.chain = bc.chain ++ [b] ∧
      b.hash = Block.calculate_hash H b ∧
      b.hash.take bc.difficulty = List.replicate bc.difficulty '0' ∧
      (∀ t, bc.chain.getLast? = some t → b.previous_hash = t.hash) ∧
      b.index = bc.chain.length ∧
      b.transactions = (match rn with
        | some node => bc.pending_transactions ++ [reward_transaction node ts]
        | none => bc.pending_transactions).take bc.block_size ∧
      bc'.pending_transactions = (match rn with
        | some node => bc.pending_transactions ++ [reward_transaction node ts]
        | none => bc.pending_transactions).drop bc.block_size ∧
      bc'.node_id = bc.node_id ∧ bc'.difficulty = bc.difficulty ∧
      bc'.block_size = bc.block_size ∧ bc'.known_nodes = bc.known_nodes ∧
      bc.chain ≠ []) := by
  intro h
  rw [Blockchain.mine_pending_transactions.eq_def] at h
  split at h
  · rename_i hemp
    cases h
    exact Or.inl ⟨hemp, rfl, rfl⟩
  · rename_i hemp
    refine Or.inr ⟨hemp, ?_⟩
    simp only at h
    split at h
    · exact absurd h (by simp)
    · rename_i latest hlast
      split at h
      · exact absurd h (by simp)
      · rename_i mined hmine
        obtain ⟨h1, h2, h3, h4, h5, h6⟩ := mine_block_spec H bc.difficulty fuel _ _ hmine
        cases h
        refine ⟨mined, rfl, rfl, h6 rfl, h5, ?_, h1, h3, rfl, rfl, rfl, rfl, rfl, ?_⟩
        · intro t ht
          rw [hlast] at ht
          cases ht
          exact h4
        · intro hnil
          rw [hnil] at hlast
          exact absurd hlast (by simp)

theorem add_transaction_cases (H : HashFn) (fuel : Nat) (bc : Blockchain)
    (tx : Transaction) (ts : Nat) (r : Bool) (bc' : Blockchain)
    (h : Blockchain.add_transaction H fuel bc tx ts = some (r, bc')) :
    r = validate_transaction tx ∧
    (r = false → bc' = bc) ∧
    (r = true →
      bc' = { bc with pending_transactions := bc.pending_transactions ++ [tx] } ∨
      ∃ ob, Blockchain.mine_pending_transactions H fuel
        { bc with pending_transactions := bc.pending_transactions ++ [tx] }
        none ts = some (ob, bc')) := by
  rw [Blockchain.add_transaction] at h
  split at h
  · rename_i hval
    cases h
    have hv : validate_transaction tx = false := by
      cases hveq : validate_transaction tx
      · rfl
      · exact absurd hveq hval
    exact ⟨hv.symm, fun _ => rfl, fun htr => absurd htr (by simp)⟩
  · rename_i hval
    simp only [Decidable.not_not] at hval
    simp only at h
    split at h
    · split at h
      · exact absurd h (by simp)
      · rename_i ob2 bc2 hmine
        cases h
        exact ⟨hval.symm, by simp, fun _ => Or.inr ⟨ob2, hmine⟩⟩
    · cases h
      exact ⟨hval.symm, by simp, fun _ => Or.inl rfl⟩

theorem mine_pending_preserves (H : HashFn) (fuel : Nat) (bc : Blockchain)
    (rn : Option String) (ts : Nat) (ob : Option Block) (bc' : Blockchain)
    (h : Blockchain.mine_pending_transactions H fuel bc rn ts = some (ob, bc'))
    (hv : Blockchain.is_chain_valid H bc = true) :
    Blockchain.is_chain_valid H bc' = true := by
  rcases mine_pending_spec H fuel bc rn ts ob bc' h with
    ⟨_, hbc, _⟩ | ⟨_, b, _, hchain, hhash, _, hprev, _, _, _, _, _, _, _, hnil⟩
  · rw [hbc]; exact hv
  · obtain ⟨t, ht⟩ := Option.isSome_iff_exists.mp (List.getLast?_isSome.mpr hnil)
    show is_chain_valid_list H bc'.chain = true
    rw [hchain]
    exact valid_append H bc.chain t b hv ht hhash (hprev t ht)

theorem add_transaction_preserves (H : HashFn) (fuel : Nat) (bc : Blockchain)
    (tx : Transaction) (ts : Nat) (r : Bool) (bc' : Blockchain)
    (h : Blockchain.add_transaction H fuel bc tx ts = some (r, bc'))
    (hv : Blockchain.is_chain_valid H bc = true) :
    Blockchain.is_chain_valid H bc' = true := by
  obtain ⟨_, hfalse, htrue⟩ := add_transaction_cases H fuel bc tx ts r bc' h
  cases r with
  | false => rw [hfalse rfl]; exact hv
  | true =>
    rcases htrue rfl with hbc | ⟨ob, hmine⟩
    · rw [hbc]; exact hv
    · exact mine_pending_preserves H fuel _ none ts ob bc' hmine hv

theorem validate_transaction_iff (tx : Transaction) :
    validate_transaction tx = true ↔
    (0 ≤ tx.lane_id ∧
     tx.signal_state ∈ (["GREEN", "RED", "YELLOW", "INIT"] : List String) ∧
     0 ≤ tx.vehicle_count ∧ 0 ≤ tx.green_time) := by
  rw [validate_transaction]
  simp only [List.mem_cons, List.mem_singleton, List.not_mem_nil, or_false]
  split_ifs with h1 h2 h3 h4 <;> simp_all

/-! Helper lemmas about the arbitration layer (backend/app.py). -/

/-- C1 (amended): dedup works per record call, not per cycle: a
record_blockchain_transaction call whose (signal_state, vehicle_count,
emergency_vehicle) tuple equals the lane's previously recorded state
adds nothing and changes nothing.  The full cycle is not a no-op on an
unchanged registry because it first turns the green lane RED and then
re-GREENs it (see the counterexample). -/
theorem C1_record_dedup (H : HashFn) (fuel : Nat) (prev : List (Nat × SignalRecord))
    (bc : Blockchain) (lane_id : Nat) (st : String) (vc gt : Nat) (em : Bool) (ts : Nat)
    (h : alookup lane_id prev = some ⟨st, vc, em⟩) :
    record_blockchain_transaction H fuel prev bc lane_id st vc gt em ts =
      some (prev, bc) := by
  rw [record_blockchain_transaction]
  simp only
  rw [if_pos h]

theorem alookup_map_value {α β : Type} (f : α → β) (k : Nat) :
    ∀ l : List (Nat × α),
    alookup k (l.map (fun p => (p.1, f p.2))) = (alookup k l).map f := by
  intro l
  induction l with
  | nil => rfl
  | cons p rest ih =>
    simp only [List.map_cons, alookup]
    split_ifs with hk
    · rfl
    · exact ih

theorem alookup_eq_none_iff {α : Type} (k : Nat) :
    ∀ l : List (Nat × α), alookup k l = none ↔ k ∉ l.map Prod.fst := by
  intro l
  induction l with
  | nil => simp [alookup]
  | cons p rest ih =>
    simp only [alookup, List.map_cons, List.mem_cons]
    split_ifs with hk
    · simp [hk]
    · rw [ih]
      constructor
      · intro hn hor
        rcases hor with he | hm
        · exact hk he.symm
        · exact hn hm
      · intro hn hm
        exact hn (Or.inr hm)

theorem alookup_some_mem_keys {α : Type} (k : Nat) (v : α) :
    ∀ l : List (Nat × α), alookup k l = some v → k ∈ l.map Prod.fst := by
  intro l
  induction l with
  | nil => intro h; simp [alookup] at h
  | cons p rest ih =>
    intro h
    rw [alookup] at h
    split_ifs at h with hk
    · simp [hk]
    · exact List.mem_cons_of_mem _ (ih h)

theorem mem_keys_alookup {α : Type} (k : Nat) (l : List (Nat × α))
    (h : k ∈ l.map Prod.fst) : ∃ v, alookup k l = some v := by
  cases ha : alookup k l with
  | none => exact absurd h ((alookup_eq_none_iff k l).mp ha)
  | some v => exact ⟨v, rfl⟩

theorem alookup_of_mem_nodup {α : Type} (k : Nat) (v : α) :
    ∀ l : List (Nat × α), (l.map Prod.fst).Nodup → (k, v) ∈ l →
    alookup k l = some v := by
  intro l
  induction l with
  | nil => intro _ hm; simp at hm
  | cons p rest ih =>
    intro hnd hm
    rw [List.map_cons, List.nodup_cons] at hnd
    rw [alookup]
    rcases List.mem_cons.mp hm with he | hm2
    · rw [← he]
      simp
    · split_ifs with hk
      · exact absurd (hk ▸ List.mem_map_of_mem Prod.fst hm2) hnd.1
      · exact ih hnd.2 hm2

theorem alookup_all_red (k : Nat) (lanes : Registry) :
    alookup k (all_red lanes) =
      (alookup k lanes).map (fun ld => { ld with is_green := false }) := by
  unfold all_red
  exact alookup_map_value (fun ld => { ld with is_green := false }) k lanes

theorem keys_map_all_red (lanes : Registry) :
    (all_red lanes).map Prod.fst = lanes.map Prod.fst := by
  induction lanes with
  | nil => rfl
  | cons p rest ih =>
    simp only [all_red, List.map_cons] at *
    rw [ih]

theorem keys_of_all_red (lanes : Registry) :
    keys_of (all_red lanes) = keys_of lanes :=
  keys_map_all_red lanes

theorem max_traffic_all_red (lanes : Registry) :
    max_traffic (all_red lanes) = max_traffic lanes := by
  induction lanes with
  | nil => rfl
  | cons p rest ih =>
    show max p.2.vehicle_count (max_traffic (all_red rest)) =
      max p.2.vehicle_count (max_traffic rest)
    rw [ih]

theorem get_vc_all_red (lanes : Registry) (k : Nat) :
    get_vc (all_red lanes) k = get_vc lanes k := by
  unfold get_vc
  rw [alookup_all_red]
  cases alookup k lanes <;> rfl

theorem sorted_keys_all_red (lanes : Registry) :
    sorted_keys (all_red lanes) = sorted_keys lanes := by
  unfold sorted_keys
  rw [keys_map_all_red]

theorem highest_all_red (lanes : Registry) :
    highest_traffic_lane (all_red lanes) = highest_traffic_lane lanes := by
  unfold highest_traffic_lane
  rw [sorted_keys_all_red]
  congr 1
  funext j
  rw [get_vc_all_red, max_traffic_all_red]

theorem all_red_eq_nil_iff (lanes : Registry) : all_red lanes = [] ↔ lanes = [] := by
  unfold all_red
  exact List.map_eq_nil_iff

theorem set_all_red_shape (H : HashFn) (fuel ts : Nat) :
    ∀ (lanes : Registry) (prev : List (Nat × SignalRecord)) (bc : Blockchain)
      (ls : Registry) (p' : List (Nat × SignalRecord)) (b' : Blockchain),
    set_all_red H fuel ts lanes prev bc = some (ls, p', b') → ls = all_red lanes := by
  intro lanes
  induction lanes with
  | nil =>
    intro prev bc ls p' b' h
    rw [set_all_red] at h
    cases h
    rfl
  | cons p rest ih =>
    intro prev bc ls p' b' h
    rw [set_all_red] at h
    split at h
    · exact absurd h (by simp)
    · rename_i step hstep
      split at h
      · exact absurd h (by simp)
      · rename_i rest1 prev2 bc2 hrec
        cases h
        show (p.1, { p.2 with is_green := false }) :: rest1 = all_red (p :: rest)
        unfold all_red
        rw [List.map_cons]
        show _ :: rest1 = _ :: all_red rest
        rw [ih _ _ _ _ _ hrec]

theorem green_keys_all_red (lanes : Registry) : green_keys (all_red lanes) = [] := by
  induction lanes with
  | nil => rfl
  | cons p rest ih =>
    unfold green_keys all_red at *
    rw [List.map_cons, List.filter_cons_of_neg]
    · exact ih
    · simp

theorem set_green_not_mem (k : Nat) :
    ∀ l : Registry, k ∉ keys_of l → set_green k l = l := by
  intro l
  induction l with
  | nil => intro _; rfl
  | cons p rest ih =>
    intro hk
    unfold keys_of at hk
    rw [List.map_cons, List.mem_cons] at hk
    push_neg at hk
    unfold set_green
    rw [List.map_cons, if_neg (fun he => hk.1 he.symm)]
    show p :: set_green k rest = p :: rest
    rw [ih hk.2]

theorem set_green_cons (k : Nat) (q : Nat × Lane) (l : Registry) :
    set_green k (q :: l) =
      (if q.1 = k then (q.1, { q.2 with is_green := true }) else q) :: set_green k l :=
  rfl

theorem green_keys_cons (q : Nat × Lane) (l : Registry) :
    green_keys (q :: l) =
      if q.2.is_green then q.1 :: green_keys l else green_keys l := by
  unfold green_keys
  split_ifs with hg
  · rw [List.filter_cons_of_pos (by simpa using hg), List.map_cons]
  · rw [List.filter_cons_of_neg (by simpa using hg)]

theorem green_keys_set_green_all_red (k : Nat) :
    ∀ lanes : Registry, (keys_of lanes).Nodup → k ∈ keys_of lanes →
    green_keys (set_green k (all_red lanes)) = [k] := by
  intro lanes
  induction lanes with
  | nil => intro _ hm; simp [keys_of] at hm
  | cons p rest ih =>
    intro hnd hm
    unfold keys_of at hnd hm
    rw [List.map_cons, List.nodup_cons] at hnd
    rw [List.map_cons, List.mem_cons] at hm
    have hall : all_red (p :: rest) = (p.1, { p.2 with is_green := false }) :: all_red rest := rfl
    rw [hall, set_green_cons]
    rcases hm with he | hm2
    · rw [if_pos he.symm]
      have hk2 : k ∉ keys_of (all_red rest) := by
        rw [keys_of_all_red]
        rw [← he] at hnd
        exact hnd.1
      rw [set_green_not_mem k (all_red rest) hk2, green_keys_cons,
        if_pos (show ({ p.2 with is_green := true } : Lane).is_green = true from rfl),
        green_keys_all_red, he]
    · have hne : ¬ p.1 = k := by
        intro he
        exact hnd.1 (he ▸ hm2)
      rw [if_neg hne, green_keys_cons,
        if_neg (show ¬ ({ p.2 with is_green := false } : Lane).is_green = true by simp)]
      exact ih hnd.2 hm2

theorem alookup_set_green_ne (e k : Nat) (hne : e ≠ k) :
    ∀ l : Registry, alookup e (set_green k l) = alookup e l := by
  intro l
  induction l with
  | nil => rfl
  | cons p rest ih =>
    unfold set_green
    rw [List.map_cons]
    by_cases hpk : p.1 = k
    · rw [if_pos hpk, alookup, alookup, if_neg (by rw [hpk]; exact fun h => hne h.symm),
        if_neg (by rw [hpk]; exact fun h => hne h.symm)]
      exact ih
    · rw [if_neg hpk, alookup, alookup]
      split_ifs with hpe
      · rfl
      · exact ih

theorem find_sorted_min_of {p : Nat → Bool} :
    ∀ l : List Nat, l.Sorted (· ≤ ·) → ∀ k, l.find? p = some k →
    p k = true ∧ k ∈ l ∧ ∀ j ∈ l, p j = true → k ≤ j := by
  intro l
  induction l with
  | nil => intro _ k h; simp at h
  | cons x xs ih =>
    intro hs k h
    by_cases hx : p x = true
    · rw [List.find?_cons_of_pos _ hx] at h
      cases h
      refine ⟨hx, List.mem_cons_self _ _, ?_⟩
      intro j hj _
      rcases List.mem_cons.mp hj with rfl | hj2
      · exact le_refl _
      · exact (List.sorted_cons.mp hs).1 j hj2
    · rw [List.find?_cons_of_neg _ hx] at h
      obtain ⟨h1, h2, h3⟩ := ih (List.sorted_cons.mp hs).2 k h
      refine ⟨h1, List.mem_cons_of_mem _ h2, ?_⟩
      intro j hj hpj
      rcases List.mem_cons.mp hj with rfl | hj2
      · exact absurd hpj hx
      · exact h3 j hj2 hpj

theorem find_sorted_eq_some {p : Nat → Bool} :
    ∀ l : List Nat, l.Sorted (· ≤ ·) → ∀ k, k ∈ l → p k = true →
    (∀ j ∈ l, p j = true → k ≤ j) → l.find? p = some k := by
  intro l
  induction l with
  | nil => intro _ k hk; simp at hk
  | cons x xs ih =>
    intro hs k hk hp hmin
    by_cases hx : p x = true
    · rw [List.find?_cons_of_pos _ hx]
      have hkx : k ≤ x := hmin x (List.mem_cons_self _ _) hx
      rcases List.mem_cons.mp hk with rfl | hk2
      · rfl
      · have hxk : x ≤ k := (List.sorted_cons.mp hs).1 k hk2
        rw [le_antisymm hxk hkx]
    · rw [List.find?_cons_of_neg _ hx]
      rcases List.mem_cons.mp hk with rfl | hk2
      · exact absurd hp hx
      · exact ih (List.sorted_cons.mp hs).2 k hk2 hp
          (fun j hj hpj => hmin j (List.mem_cons_of_mem _ hj) hpj)

theorem max_traffic_attained :
    ∀ lanes : Registry, lanes ≠ [] →
    ∃ q ∈ lanes, q.2.vehicle_count = max_traffic lanes := by
  intro lanes
  induction lanes with
  | nil => intro h; exact absurd rfl h
  | cons q rest ih =>
    intro _
    by_cases hrn : rest = []
    · subst hrn
      refine ⟨q, List.mem_cons_self _ _, ?_⟩
      show q.2.vehicle_count = max q.2.vehicle_count (max_traffic [])
      rw [show max_traffic [] = 0 from rfl, Nat.max_zero]
    · obtain ⟨w, hw, hwv⟩ := ih hrn
      by_cases hc : max_traffic rest ≤ q.2.vehicle_count
      · refine ⟨q, List.mem_cons_self _ _, ?_⟩
        show q.2.vehicle_count = max q.2.vehicle_count (max_traffic rest)
        rw [Nat.max_eq_left hc]
      · push_neg at hc
        refine ⟨w, List.mem_cons_of_mem _ hw, ?_⟩
        show w.2.vehicle_count = max q.2.vehicle_count (max_traffic rest)
        rw [Nat.max_eq_right (le_of_lt hc)]
        exact hwv

theorem sorted_keys_sorted (lanes : Registry) :
    (sorted_keys lanes).Sorted (· ≤ ·) :=
  List.sorted_insertionSort (· ≤ ·) (lanes.map Prod.fst)

theorem mem_sorted_keys (lanes : Registry) (k : Nat) :
    k ∈ sorted_keys lanes ↔ k ∈ keys_of lanes :=
  (List.perm_insertionSort (· ≤ ·) (lanes.map Prod.fst)).mem_iff

theorem first_emergency_spec :
    ∀ (roads : List Road) (i : Nat), first_emergency roads = some i →
    ∃ r, roads[i]? = some r ∧ r.hasEmergencyVehicle = true ∧
      ∀ j r2, j < i → roads[j]? = some r2 → r2.hasEmergencyVehicle = false := by
  intro roads
  induction roads with
  | nil => intro i h; simp [first_emergency] at h
  | cons r rest ih =>
    intro i h
    rw [first_emergency] at h
    split_ifs at h with hr
    · cases h
      exact ⟨r, by simp, hr, fun j r2 hj _ => absurd hj (Nat.not_lt_zero j)⟩
    · cases hfe : first_emergency rest with
      | none => rw [hfe] at h; cases h
      | some i2 =>
        rw [hfe] at h
        cases h
        obtain ⟨r2, hr2, he2, hmin⟩ := ih i2 hfe
        refine ⟨r2, by simpa using hr2, he2, ?_⟩
        intro j r3 hj hg
        cases j with
        | zero =>
          rw [List.getElem?_cons_zero] at hg
          cases hg
          cases hhe : r.hasEmergencyVehicle
          · rfl
          · exact absurd hhe hr
        | succ j2 =>
          exact hmin j2 r3 (Nat.lt_of_succ_lt_succ hj) (by simpa using hg)

theorem turn_road_get_same :
    ∀ (l : List Road) (j : Nat) (g : Bool),
    (turn_road j g l)[j]? = (l[j]?).map (fun r => { r with is_green := g }) := by
  intro l
  induction l with
  | nil => intro j g; cases j <;> simp [turn_road]
  | cons r rest ih =>
    intro j g
    cases j with
    | zero => simp [turn_road]
    | succ j2 =>
      simp only [turn_road]
      simpa using ih j2 g

theorem turn_road_get_other :
    ∀ (l : List Road) (j i : Nat), i ≠ j → ∀ g : Bool,
    (turn_road j g l)[i]? = l[i]? := by
  intro l
  induction l with
  | nil => intro j i _ g; cases j <;> simp [turn_road]
  | cons r rest ih =>
    intro j i hne g
    cases j with
    | zero =>
      cases i with
      | zero => exact absurd rfl hne
      | succ i2 => simp [turn_road]
    | succ j2 =>
      cases i with
      | zero => simp [turn_road]
      | succ i2 =>
        simp only [turn_road]
        simpa using ih j2 i2 (fun he => hne (by rw [he])) g

theorem dtl_cases (H : HashFn) (fuel : Nat) (lanes : Registry)
    (prev : List (Nat × SignalRecord)) (bc : Blockchain) (ts : Nat)
    (lanes' : Registry) (prev' : List (Nat × SignalRecord)) (bc' : Blockchain)
    (hnd : (keys_of lanes).Nodup)
    (h : determine_traffic_lights H fuel lanes prev bc ts = some (lanes', prev', bc')) :
    (lanes = [] ∧ lanes' = []) ∨
    (lanes ≠ [] ∧ max_traffic lanes = 0 ∧ 1 ∈ keys_of lanes ∧
      lanes' = set_green 1 (all_red lanes)) ∨
    (lanes ≠ [] ∧ max_traffic lanes = 0 ∧ 1 ∉ keys_of lanes ∧ lanes' = all_red lanes) ∨
    (lanes ≠ [] ∧ max_traffic lanes ≠ 0 ∧ ∃ k, highest_traffic_lane lanes = some k ∧
      ((k = 0 ∧ lanes' = all_red lanes) ∨
       (k ≠ 0 ∧ lanes' = set_green k (all_red lanes)))) := by
  rw [determine_traffic_lights] at h
  split at h
  · exact absurd h (by simp)
  · rename_i lanes1 prev1 bc1 hsar
    have hl1 : lanes1 = all_red lanes :=
      set_all_red_shape H fuel ts lanes prev bc lanes1 prev1 bc1 hsar
    subst hl1
    split_ifs at h with hnil hmax
    · cases h
      exact Or.inl ⟨(all_red_eq_nil_iff lanes).mp hnil, hnil⟩
    · have hlne : lanes ≠ [] := fun he => hnil (by rw [he]; rfl)
      rw [max_traffic_all_red] at hmax
      split at h
      · rename_i l1 hal
        have h1m : 1 ∈ keys_of lanes := by
          have hmm := alookup_some_mem_keys 1 l1 (all_red lanes) hal
          rwa [keys_map_all_red] at hmm
        split at h
        · exact absurd h (by simp)
        · rename_i prev2 bc2 hrec
          cases h
          exact Or.inr (Or.inl ⟨hlne, hmax, h1m, rfl⟩)
      · rename_i hal
        have h1n : 1 ∉ keys_of lanes := by
          intro hm
          obtain ⟨v, hv⟩ := mem_keys_alookup 1 (all_red lanes)
            (by rw [keys_map_all_red]; exact hm)
          rw [hal] at hv
          cases hv
        cases h
        exact Or.inr (Or.inr (Or.inl ⟨hlne, hmax, h1n, rfl⟩))
    · have hlne : lanes ≠ [] := fun he => hnil (by rw [he]; rfl)
      rw [max_traffic_all_red] at hmax
      split at h
      · rename_i k hfind
        rw [highest_all_red] at hfind
        split_ifs at h with hk0
        · cases h
          exact Or.inr (Or.inr (Or.inr ⟨hlne, hmax, k, hfind, Or.inl ⟨hk0, rfl⟩⟩))
        · split at h
          · rename_i ld hld
            split at h
            · exact absurd h (by simp)
            · rename_i prev2 bc2 hrec
              cases h
              exact Or.inr (Or.inr (Or.inr ⟨hlne, hmax, k, hfind, Or.inr ⟨hk0, rfl⟩⟩))
          · rename_i hld
            exfalso
            have hkm : k ∈ keys_of lanes := by
              have hmem := List.mem_of_find?_eq_some hfind
              exact (mem_sorted_keys lanes k).mp hmem
            obtain ⟨v, hv⟩ := mem_keys_alookup k (all_red lanes)
              (by rw [keys_map_all_red]; exact hkm)
            rw [hld] at hv
            cases hv
      · rename_i hfind
        exfalso
        obtain ⟨q, hq, hqv⟩ := max_traffic_attained lanes hlne
        have hkm : q.1 ∈ keys_of lanes := List.mem_map_of_mem Prod.fst hq
        have hal : alookup q.1 lanes = some q.2 :=
          alookup_of_mem_nodup q.1 q.2 lanes hnd hq
        have hpred : (get_vc (all_red lanes) q.1 == max_traffic (all_red lanes)) = true := by
          rw [get_vc_all_red, max_traffic_all_red]
          unfold get_vc
          rw [hal]
          simp [hqv]
        have hsome : (highest_traffic_lane (all_red lanes)).isSome = true := by
          unfold highest_traffic_lane
          rw [List.find?_isSome]
          refine ⟨q.1, ?_, hpred⟩
          rw [sorted_keys_all_red]
          exact (mem_sorted_keys lanes q.1).mpr hkm
        rw [hfind] at hsome
        cases hsome

/-! Claim theorems for the ledger (blockchain.py). -/

/-- C4 (counterexample): a transaction whose signal_state is REWARD
satisfies every condition of the claim (lane_id ≥ 0, state in the
claimed five-value enum, non-negative counts) yet add_transaction
returns false, because validate_transaction only allows
GREEN/RED/YELLOW/INIT. -/
theorem C4_counterexample :
    Blockchain.add_transaction toy_hash 0 fixture_bc (reward_transaction "main" 0) 0 =
      some (false, fixture_bc) ∧
    0 ≤ (reward_transaction "main" 0).lane_id ∧
    (reward_transaction "main" 0).signal_state ∈
      (["INIT", "GREEN", "RED", "YELLOW", "REWARD"] : List String) ∧
    0 ≤ (reward_transaction "main" 0).vehicle_count ∧
    0 ≤ (reward_transaction "main" 0).green_time := by
  refine ⟨by decide, by decide, by decide, by decide, by decide⟩

/-- C4 (amended): whenever add_transaction returns, it returns true iff
lane_id ≥ 0, signal_state is one of GREEN/RED/YELLOW/INIT (REWARD is
rejected), vehicle_count ≥ 0 and green_time ≥ 0; on false the whole
ledger state is unchanged. -/
theorem C4_add_transaction_validation (H : HashFn) (fuel : Nat) (bc : Blockchain)
    (tx : Transaction) (ts : Nat) (r : Bool) (bc' : Blockchain)
    (h : Blockchain.add_transaction H fuel bc tx ts = some (r, bc')) :
    ((r = true) ↔
      (0 ≤ tx.lane_id ∧
       tx.signal_state ∈ (["GREEN", "RED", "YELLOW", "INIT"] : List String) ∧
       0 ≤ tx.vehicle_count ∧ 0 ≤ tx.green_time)) ∧
    (r = false → bc' = bc) := by
  obtain ⟨hr, hfalse, _⟩ := add_transaction_cases H fuel bc tx ts r bc' h
  refine ⟨?_, hfalse⟩
  rw [hr]
  exact validate_transaction_iff tx

/-- C4 (witness): the amended theorem applied to a concrete rejected
transaction with a negative lane id. -/
theorem C4_witness :
    ((false = true) ↔
      (0 ≤ fixture_bad_tx.lane_id ∧
       fixture_bad_tx.signal_state ∈ (["GREEN", "RED", "YELLOW", "INIT"] : List String) ∧
       0 ≤ fixture_bad_tx.vehicle_count ∧ 0 ≤ fixture_bad_tx.green_time)) ∧
    (false = false → fixture_bc = fixture_bc) :=
  C4_add_transaction_validation toy_hash 0 fixture_bc fixture_bad_tx 0 false fixture_bc
    (by decide)

/-- C5: from a freshly constructed ledger, any sequence of
add_transaction and mine_pending_transactions calls keeps
is_chain_valid true: every non-genesis block's stored hash matches its
recomputation and every link points at the predecessor's hash. -/
theorem C5_chain_integrity (H : HashFn) (bc : Blockchain) (h : Reachable H bc) :
    Blockchain.is_chain_valid H bc = true := by
  induction h with
  | init n d bs t1 t2 => rfl
  | add bc tx ts fuel r bc' _ hadd ih =>
    exact add_transaction_preserves H fuel bc tx ts r bc' hadd ih
  | mine bc rn ts fuel ob bc' _ hmine ih =>
    exact mine_pending_preserves H fuel bc rn ts ob bc' hmine ih

/-- C5 (witness): validity of the concrete state reached by adding one
valid transaction to a fresh block_size-1 ledger, which auto-mines a
block. -/
theorem C5_witness : Blockchain.is_chain_valid toy_hash c5_bc1 = true :=
  C5_chain_integrity toy_hash c5_bc1
    (Reachable.add c5_bc0 fixture_tx 0 3 true c5_bc1
      (Reachable.init "n" 1 1 0 0) (by decide))

/-- C6: every block returned by mine_pending_transactions has a hash
whose first `difficulty` characters are all '0', and it is exactly the
block appended to the chain. -/
theorem C6_proof_of_work (H : HashFn) (fuel : Nat) (bc : Blockchain)
    (rn : Option String) (ts : Nat) (b : Block) (bc' : Blockchain)
    (h : Blockchain.mine_pending_transactions H fuel bc rn ts = some (some b, bc')) :
    b.hash.take bc.difficulty = List.replicate bc.difficulty '0' ∧
    bc'.chain = bc.chain ++ [b] := by
  rcases mine_pending_spec H fuel bc rn ts (some b) bc' h with
    ⟨_, _, hob⟩ | ⟨_, b2, hob, hchain, _, hpow, _⟩
  · exact absurd hob (by simp)
  · cases hob
    exact ⟨hpow, hchain⟩

/-- C6 (witness): the theorem applied to the concrete mine of c6_bc at
difficulty 1. -/
theorem C6_witness :
    c6_block.hash.take c6_bc.difficulty = List.replicate c6_bc.difficulty '0' ∧
    c6_res.2.chain = c6_bc.chain ++ [c6_block] :=
  C6_proof_of_work toy_hash 3 c6_bc none 0 c6_block c6_res.2 (by decide)

/-- C7: mining an empty pool returns none and changes nothing; mining a
non-empty pool with no reward node returns a block holding exactly the
first block_size pending transactions in arrival order, indexed at the
old chain length and linked to the old tail's hash, appends it, and
drops exactly those transactions from the pool. -/
theorem C7_mine_pending_behavior :
    (∀ (H : HashFn) (fuel : Nat) (bc : Blockchain) (rn : Option String) (ts : Nat),
      bc.pending_transactions = [] →
      Blockchain.mine_pending_transactions H fuel bc rn ts = some (none, bc)) ∧
    (∀ (H : HashFn) (fuel : Nat) (bc : Blockchain) (ts : Nat) (ob : Option Block)
      (bc' : Blockchain),
      bc.pending_transactions ≠ [] →
      Blockchain.mine_pending_transactions H fuel bc none ts = some (ob, bc') →
      ∃ b, ob = some b ∧
        b.transactions = bc.pending_transactions.take bc.block_size ∧
        b.index = bc.chain.length ∧
        (∀ t, bc.chain.getLast? = some t → b.previous_hash = t.hash) ∧
        bc'.chain = bc.chain ++ [b] ∧
        bc'.pending_transactions = bc.pending_transactions.drop bc.block_size) := by
  constructor
  · intro H fuel bc rn ts hemp
    rw [Blockchain.mine_pending_transactions.eq_def, if_pos hemp]
  · intro H fuel bc ts ob bc' hne h
    rcases mine_pending_spec H fuel bc none ts ob bc' h with
      ⟨hemp, _, _⟩ | ⟨_, b, hob, hchain, _, _, hprev, hidx, htxs, hpend, _⟩
    · exact absurd hemp hne
    · exact ⟨b, hob, htxs, hidx, hprev, hchain, hpend⟩

/-- C7 (witness): both parts applied to concrete ledgers (a fresh empty
pool, and the one-transaction pool of c6_bc). -/
theorem C7_witness :
    Blockchain.mine_pending_transactions toy_hash 3 fixture_bc none 0 =
      some (none, fixture_bc) ∧
    ∃ b, c6_res.1 = some b ∧
      b.transactions = c6_bc.pending_transactions.take c6_bc.block_size ∧
      b.index = c6_bc.chain.length ∧
      (∀ t, c6_bc.chain.getLast? = some t → b.previous_hash = t.hash) ∧
      c6_res.2.chain = c6_bc.chain ++ [b] ∧
      c6_res.2.pending_transactions = c6_bc.pending_transactions.drop c6_bc.block_size :=
  ⟨C7_mine_pending_behavior.1 toy_hash 3 fixture_bc none 0 (by decide),
   C7_mine_pending_behavior.2 toy_hash 3 c6_bc 0 c6_res.1 c6_res.2 (by decide) (by decide)⟩

/-- C8: replace_chain accepts exactly the strictly longer candidates
that pass the is_chain_valid rule, installing the candidate verbatim;
in every other case it returns false and leaves the state untouched. -/
theorem C8_replace_chain (H : HashFn) (bc : Blockchain) (nc : List Block)
    (r : Bool) (bc' : Blockchain) (h : Blockchain.replace_chain H bc nc = (r, bc')) :
    ((r = true) ↔ (bc.chain.length < nc.length ∧ is_chain_valid_list H nc = true)) ∧
    (r = true → bc' = { bc with chain := nc }) ∧
    (r = false → bc' = bc) := by
  rw [Blockchain.replace_chain] at h
  by_cases h1 : nc.length ≤ bc.chain.length
  · rw [if_pos h1] at h
    cases h
    exact ⟨iff_of_false (by simp) (fun hcl => absurd hcl.1 (by omega)),
      fun htr => absurd htr (by simp), fun _ => rfl⟩
  · rw [if_neg h1] at h
    by_cases h2 : is_chain_valid_list H nc = true
    · rw [if_neg (not_not_intro h2)] at h
      cases h
      exact ⟨iff_of_true rfl ⟨by omega, h2⟩, fun _ => rfl, fun hf => absurd hf (by simp)⟩
    · rw [if_pos h2] at h
      cases h
      exact ⟨iff_of_false (by simp) (fun hcl => h2 hcl.2),
        fun htr => absurd htr (by simp), fun _ => rfl⟩

/-- C8 (witness): the theorem applied to the concrete rejection of an
empty candidate chain. -/
theorem C8_witness :
    ((false = true) ↔
      (fixture_bc.chain.length < ([] : List Block).length ∧
       is_chain_valid_list toy_hash [] = true)) ∧
    (false = true → fixture_bc = { fixture_bc with chain := [] }) ∧
    (false = false → fixture_bc = fixture_bc) :=
  C8_replace_chain toy_hash fixture_bc [] false fixture_bc (by decide)

/-- C10: is_chain_valid never inspects the head block's own contents
beyond its stored hash (so a chain whose genesis transactions are
altered under a stale stored hash still validates), exhibited on a
concrete two-block chain whose tampered genesis fails recomputation
while the chain still reports valid. -/
theorem C10_genesis_unchecked :
    (∀ (H : HashFn) (g g' : Block) (rest : List Block), g.hash = g'.hash →
      is_chain_valid_list H (g :: rest) = is_chain_valid_list H (g' :: rest)) ∧
    is_chain_valid_list toy_hash [c10_tampered_genesis, c10_tip] = true ∧
    c10_tampered_genesis.hash ≠ Block.calculate_hash toy_hash c10_tampered_genesis ∧
    c10_tampered_genesis.transactions ≠ c10_orig_genesis.transactions ∧
    c10_tip.hash = Block.calculate_hash toy_hash c10_tip := by
  refine ⟨?_, by decide, by decide, by decide, rfl⟩
  intro H g g' rest hg
  cases rest with
  | nil => rfl
  | cons y ys =>
    rw [is_chain_valid_list, is_chain_valid_list, hg]

/-- C10 (witness): the head-independence part applied to the original
and tampered genesis blocks, which share the same stored hash. -/
theorem C10_witness :
    is_chain_valid_list toy_hash (c10_orig_genesis :: [c10_tip]) =
    is_chain_valid_list toy_hash (c10_tampered_genesis :: [c10_tip]) :=
  C10_genesis_unchecked.1 toy_hash c10_orig_genesis c10_tampered_genesis [c10_tip] rfl

/-- C9: for every vehicle count v, calculate_green_time with the default
base 30 and cap 90 equals the truncation of 30 + 1.5 * v clamped to at
most 90, hence the three reference values 30, 45 and 90. -/
theorem C9_green_time_formula :
    (∀ v : Nat, calculate_green_time v 30 90 = min (30 + 3 * (v : Int) / 2) 90) ∧
    calculate_green_time 0 30 90 = 30 ∧
    calculate_green_time 10 30 90 = 45 ∧
    calculate_green_time 40 30 90 = 90 := by
  have key : ∀ v : Nat, calculate_green_time v 30 90 = min (30 + 3 * (v : Int) / 2) 90 := by
    intro v
    simp only [calculate_green_time]
    have hval : ((30:ℕ) : ℚ) + (v : ℚ) * 1.5 = (((60 + 3 * v : ℤ)) : ℚ) / ((2:ℕ) : ℚ) := by
      push_cast
      ring
    rw [hval, Rat.floor_intCast_div_natCast]
    have harg : (60 + 3 * (v:ℤ)) / ((2:ℕ):ℤ) = 30 + 3 * (v:ℤ) / 2 := by
      push_cast
      omega
    rw [← harg]
    norm_num
  refine ⟨key, ?_, ?_, ?_⟩
  · rw [key 0]; norm_num
  · rw [key 10]; norm_num
  · rw [key 40]; norm_num

/-- C1 (counterexample): one cycle on a single quiet lane reaches a
state whose registry is a fixed point of the cycle, yet re-running the
cycle on that unchanged registry appends two new transactions to the
pending pool (a RED and a GREEN for the green lane) instead of zero. -/
theorem C1_counterexample :
    determine_traffic_lights toy_hash 9 c1_lanes0 [] fixture_bc 0 = some c1_s1 ∧
    determine_traffic_lights toy_hash 9 c1_s1.1 c1_s1.2.1 c1_s1.2.2 0 = some c1_s2 ∧
    c1_s2.1 = c1_s1.1 ∧
    c1_s2.2.2.chain = c1_s1.2.2.chain ∧
    c1_s2.2.2.pending_transactions.length =
      c1_s1.2.2.pending_transactions.length + 2 := by
  refine ⟨by decide, by decide, by decide, by decide, by decide⟩

/-- C1 (witness): the amended dedup theorem applied to a concrete primed
previous-state map. -/
theorem C1_witness :
    record_blockchain_transaction toy_hash 0 c1_prev fixture_bc 1 "GREEN" 0 30 false 0 =
      some (c1_prev, fixture_bc) :=
  C1_record_dedup toy_hash 0 c1_prev fixture_bc 1 "GREEN" 0 30 false 0 (by decide)

/-- C2 (counterexample): on the non-empty registry holding only lane 2
with zero vehicles, the cycle leaves every lane red: no lane is green,
refuting both the exactly-one-green invariant and the
lowest-numbered-lane default (the code defaults to the literal lane 1,
which is absent). -/
theorem C2_counterexample :
    determine_traffic_lights toy_hash 9 c2_lanes [] fixture_bc 0 =
      some (c2_lanes, [], fixture_bc) ∧
    c2_lanes ≠ [] ∧ green_keys c2_lanes = [] := by
  refine ⟨by decide, by decide, by decide⟩

/-- C2 (amended): after a cycle at most one lane is green; with
max_traffic = 0 the literal lane 1 is green iff present (no lane
otherwise); with max_traffic > 0 the green lane, if any, is the
lowest-id lane among those attaining the maximum count, and that lane
is green exactly when its id is nonzero (the Python truthiness guard
drops lane 0). -/
theorem C2_single_green (H : HashFn) (fuel : Nat) (lanes : Registry)
    (prev : List (Nat × SignalRecord)) (bc : Blockchain) (ts : Nat)
    (lanes' : Registry) (prev' : List (Nat × SignalRecord)) (bc' : Blockchain)
    (hnd : (keys_of lanes).Nodup)
    (h : determine_traffic_lights H fuel lanes prev bc ts = some (lanes', prev', bc')) :
    (green_keys lanes').length ≤ 1 ∧
    (max_traffic lanes = 0 → 1 ∈ keys_of lanes → green_keys lanes' = [1]) ∧
    (max_traffic lanes = 0 → 1 ∉ keys_of lanes → green_keys lanes' = []) ∧
    (max_traffic lanes ≠ 0 → ∀ k ∈ green_keys lanes',
      get_vc lanes k = max_traffic lanes ∧ k ≠ 0 ∧
      ∀ j ∈ keys_of lanes, get_vc lanes j = max_traffic lanes → k ≤ j) ∧
    (max_traffic lanes ≠ 0 → ∀ k, k ∈ keys_of lanes → k ≠ 0 →
      get_vc lanes k = max_traffic lanes →
      (∀ j ∈ keys_of lanes, get_vc lanes j = max_traffic lanes → k ≤ j) →
      green_keys lanes' = [k]) := by
  rcases dtl_cases H fuel lanes prev bc ts lanes' prev' bc' hnd h with
    ⟨hle, hlg⟩ | ⟨hlne, hm0, h1m, hset⟩ | ⟨hlne, hm0, h1n, hall⟩ |
    ⟨hlne, hmne, k, hfind, hsub⟩
  · subst hle
    rw [hlg]
    refine ⟨by simp [green_keys], ?_, fun _ _ => rfl, fun _ k hk => ?_, fun _ k hk => ?_⟩
    · intro _ h1m
      exact absurd h1m (by simp [keys_of])
    · exact absurd hk (by simp [green_keys])
    · exact absurd hk (by simp [keys_of])
  · have hg : green_keys lanes' = [1] := by
      rw [hset]
      exact green_keys_set_green_all_red 1 lanes hnd h1m
    rw [hg]
    exact ⟨by simp, fun _ _ => rfl, fun _ hn => absurd h1m hn,
      fun hmne => absurd hm0 hmne, fun hmne => absurd hm0 hmne⟩
  · have hg : green_keys lanes' = [] := by
      rw [hall]
      exact green_keys_all_red lanes
    rw [hg]
    exact ⟨by simp, fun _ h1m => absurd h1m h1n, fun _ _ => rfl,
      fun hmne => absurd hm0 hmne, fun hmne => absurd hm0 hmne⟩
  · have hfind2 : (sorted_keys lanes).find?
        (fun j => get_vc lanes j == max_traffic lanes) = some k := hfind
    obtain ⟨hpk, hkmem, hkmin⟩ :=
      find_sorted_min_of (sorted_keys lanes) (sorted_keys_sorted lanes) k hfind2
    have hpk2 : get_vc lanes k = max_traffic lanes := by simpa using hpk
    have hkmem2 : k ∈ keys_of lanes := (mem_sorted_keys lanes k).mp hkmem
    have hkmin2 : ∀ j ∈ keys_of lanes, get_vc lanes j = max_traffic lanes → k ≤ j := by
      intro j hj hvj
      exact hkmin j ((mem_sorted_keys lanes j).mpr hj) (by simpa using hvj)
    have huniq : ∀ k2, k2 ∈ keys_of lanes → get_vc lanes k2 = max_traffic lanes →
        (∀ j ∈ keys_of lanes, get_vc lanes j = max_traffic lanes → k2 ≤ j) → k2 = k := by
      intro k2 hk2m hk2v hk2min
      have hf2 : (sorted_keys lanes).find?
          (fun j => get_vc lanes j == max_traffic lanes) = some k2 := by
        refine find_sorted_eq_some (sorted_keys lanes) (sorted_keys_sorted lanes) k2
          ((mem_sorted_keys lanes k2).mpr hk2m) (by simpa using hk2v) ?_
        intro j hj hpj
        exact hk2min j ((mem_sorted_keys lanes j).mp hj) (by simpa using hpj)
      rw [hfind2] at hf2
      exact (Option.some.inj hf2).symm
    rcases hsub with ⟨hk0, hall⟩ | ⟨hk0, hset⟩
    · have hg : green_keys lanes' = [] := by
        rw [hall]
        exact green_keys_all_red lanes
      rw [hg]
      refine ⟨by simp, fun hm0 _ => absurd hm0 hmne, fun _ _ => rfl,
        fun _ k2 hk2 => absurd hk2 (by simp), ?_⟩
      intro _ k2 hk2m hk2ne hk2v hk2min
      exact absurd (huniq k2 hk2m hk2v hk2min) (by rw [hk0]; exact hk2ne)
    · have hg : green_keys lanes' = [k] := by
        rw [hset]
        exact green_keys_set_green_all_red k lanes hnd hkmem2
      rw [hg]
      refine ⟨by simp, fun hm0 => absurd hm0 hmne, fun hm0 => absurd hm0 hmne, ?_, ?_⟩
      · intro _ k2 hk2
        rw [List.mem_singleton] at hk2
        subst hk2
        exact ⟨hpk2, hk0, hkmin2⟩
      · intro _ k2 hk2m hk2ne hk2v hk2min
        rw [huniq k2 hk2m hk2v hk2min]

/-- C2 (witness): the amended theorem applied to a concrete two-lane
registry where lane 2 has the strictly larger count. -/
theorem C2_witness :
    (green_keys c2w_out.1).length ≤ 1 ∧
    (max_traffic c2w_lanes = 0 → 1 ∈ keys_of c2w_lanes → green_keys c2w_out.1 = [1]) ∧
    (max_traffic c2w_lanes = 0 → 1 ∉ keys_of c2w_lanes → green_keys c2w_out.1 = []) ∧
    (max_traffic c2w_lanes ≠ 0 → ∀ k ∈ green_keys c2w_out.1,
      get_vc c2w_lanes k = max_traffic c2w_lanes ∧ k ≠ 0 ∧
      ∀ j ∈ keys_of c2w_lanes, get_vc c2w_lanes j = max_traffic c2w_lanes → k ≤ j) ∧
    (max_traffic c2w_lanes ≠ 0 → ∀ k, k ∈ keys_of c2w_lanes → k ≠ 0 →
      get_vc c2w_lanes k = max_traffic c2w_lanes →
      (∀ j ∈ keys_of c2w_lanes, get_vc c2w_lanes j = max_traffic c2w_lanes → k ≤ j) →
      green_keys c2w_out.1 = [k]) :=
  C2_single_green toy_hash 9 c2w_lanes [] fixture_bc 0
    c2w_out.1 c2w_out.2.1 c2w_out.2.2 (by decide) (by decide)

/-- C3 (counterexample): with lane 1 carrying 10 vehicles and lane 2
flagged emergency with 1 vehicle, one arbitration cycle leaves the
emergency lane RED and greens lane 1: determine_traffic_lights has no
emergency preemption. -/
theorem C3_counterexample :
    determine_traffic_lights toy_hash 9 c3_lanes [] fixture_bc 0 = some c3_out ∧
    c3_emergency_lane.emergency_vehicle = true ∧
    c3_emergency_lane.vehicle_count < max_traffic c3_lanes ∧
    alookup 2 c3_out.1 = some { c3_emergency_lane with is_green := false } ∧
    green_keys c3_out.1 = [1] := by
  refine ⟨by decide, by decide, by decide, by decide, by decide⟩

/-- C3 (amended): in backend/app.py the arbitration cycle ignores the
emergency flag for lane selection — a flagged lane whose count is below
the maximum always ends the cycle RED; emergency preemption exists only
in the main.py control loop, where one pass of the emergency check makes
the first listed road carrying an emergency vehicle the green active
road within that cycle. -/
theorem C3_no_preemption_in_cycle :
    (∀ (H : HashFn) (fuel : Nat) (lanes : Registry)
      (prev : List (Nat × SignalRecord)) (bc : Blockchain) (ts : Nat)
      (lanes' : Registry) (prev' : List (Nat × SignalRecord)) (bc' : Blockchain)
      (e : Nat) (eld : Lane),
      (keys_of lanes).Nodup →
      determine_traffic_lights H fuel lanes prev bc ts = some (lanes', prev', bc') →
      (e, eld) ∈ lanes → eld.emergency_vehicle = true →
      eld.vehicle_count < max_traffic lanes →
      alookup e lanes' = some { eld with is_green := false }) ∧
    (∀ (roads : List Road) (active i : Nat),
      first_emergency roads = some i →
      (∀ r, roads[active]? = some r → r.is_green = true) →
      ∃ r, (emergency_scan roads active).1[i]? = some r ∧ r.is_green = true ∧
        r.hasEmergencyVehicle = true ∧ (emergency_scan roads active).2 = i ∧
        ∀ j r2, j < i → roads[j]? = some r2 → r2.hasEmergencyVehicle = false) := by
  constructor
  · intro H fuel lanes prev bc ts lanes' prev' bc' e eld hnd h hmem hem hvlt
    have hmne : max_traffic lanes ≠ 0 := by omega
    have heal : alookup e lanes = some eld := alookup_of_mem_nodup e eld lanes hnd hmem
    have hge : get_vc lanes e = eld.vehicle_count := by
      unfold get_vc
      rw [heal]
    rcases dtl_cases H fuel lanes prev bc ts lanes' prev' bc' hnd h with
      ⟨hle, _⟩ | ⟨_, hm0, _, _⟩ | ⟨_, hm0, _, _⟩ | ⟨_, _, k, hfind, hsub⟩
    · rw [hle] at hmem
      exact absurd hmem (by simp)
    · exact absurd hm0 hmne
    · exact absurd hm0 hmne
    · have hfind2 : (sorted_keys lanes).find?
          (fun j => get_vc lanes j == max_traffic lanes) = some k := hfind
      obtain ⟨hpk, _, _⟩ :=
        find_sorted_min_of (sorted_keys lanes) (sorted_keys_sorted lanes) k hfind2
      have hpk2 : get_vc lanes k = max_traffic lanes := by simpa using hpk
      have hek : e ≠ k := by
        intro he
        rw [← he] at hpk2
        rw [hge] at hpk2
        omega
      rcases hsub with ⟨_, hall⟩ | ⟨_, hset⟩
      · rw [hall, alookup_all_red, heal]
        rfl
      · rw [hset, alookup_set_green_ne e k hek, alookup_all_red, heal]
        rfl
  · intro roads active i hfe hact
    obtain ⟨r, hr, hre, hmin⟩ := first_emergency_spec roads i hfe
    have hscan : emergency_scan roads active =
        if i = active then (roads, active)
        else (turn_road i true (turn_road active false roads), i) := by
      unfold emergency_scan
      rw [hfe]
    rw [hscan]
    by_cases hia : i = active
    · rw [if_pos hia]
      refine ⟨r, hr, ?_, hre, hia.symm, hmin⟩
      apply hact
      rw [← hia]
      exact hr
    · rw [if_neg hia]
      refine ⟨{ r with is_green := true }, ?_, rfl, hre, rfl, hmin⟩
      rw [turn_road_get_same, turn_road_get_other (roads) active i hia false, hr]
      rfl

/-- C3 (witness): both parts on concrete data: the two-lane registry of
the counterexample, and the four-road main.py configuration with an
emergency on the third road. -/
theorem C3_witness :
    alookup 2 c3_out.1 = some { c3_emergency_lane with is_green := false } ∧
    (∃ r, (emergency_scan c3_roads 0).1[2]? = some r ∧ r.is_green = true ∧
      r.hasEmergencyVehicle = true ∧ (emergency_scan c3_roads 0).2 = 2 ∧
      ∀ j r2, j < 2 → c3_roads[j]? = some r2 → r2.hasEmergencyVehicle = false) := by
  constructor
  · exact C3_no_preemption_in_cycle.1 toy_hash 9 c3_lanes [] fixture_bc 0
      c3_out.1 c3_out.2.1 c3_out.2.2 2 c3_emergency_lane
      (by decide) (by decide) (by decide) (by decide) (by decide)
  · refine C3_no_preemption_in_cycle.2 c3_roads 0 2 (by decide) ?_
    intro r hr
    have h0 : c3_roads[0]? = some (⟨"Road 1", true, false⟩ : Road) := by decide
    rw [h0] at hr
    rw [← Option.some.inj hr]

end STMS
